import Mathlib

/-!
Verification of `gen_recomp.py` (Zelda64Recomp): a shallow embedding of the
script's structure-descriptor system, section/symbol readers, overlay
classifier and microcode extractor, together with theorems settling the
frozen claims about it.

Conventions of the embedding:
* Python byte buffers (`memoryview`, `bytes`) are `List Nat`, one entry per
  byte (each < 256 in practice; the embedding does not need the bound).
* Python slices `data[a:b]` become `(data.drop a).take (b - a)`, which has
  the same clamping behaviour on out-of-range bounds.
* Fallible code (assertions, `KeyError`, `struct.error`,
  `UnicodeDecodeError`, `IndexError`) is modelled with
  `Except GenError _` / `Option`; any error aborts the pipeline, matching
  the script's fail-fast behaviour.
-/

/-- The kinds of runtime failure the script can hit: `assert` statements,
dictionary `KeyError`, `struct.error` from `struct.unpack`/`iter_unpack`,
`UnicodeDecodeError` from strict ASCII decoding, and `IndexError` from
indexing past a buffer's end. -/
inductive GenError where
  | assertFail (msg : String)
  | keyError (key : String)
  | structError
  | unicodeDecodeError
  | indexError
deriving DecidableEq

/-- Boolean success test for `Except`. -/
def exceptOk {ε α : Type} : Except ε α → Bool
  | .ok _ => true
  | .error _ => false

/-- Source: `alignN(x, n) = (x + n-1) & ~(n-1)`.  For the power-of-two `n`
used by every alignment in the script (1, 2, 4, 8), clearing the low bits of
`x + n - 1` is exactly rounding `x + n - 1` down to a multiple of `n`, i.e.
`(x + n - 1) / n * n` (for `n = 0` both sides are `0`: in Python
`~(n-1) = ~(-1) = 0`). -/
def alignN (x n : Nat) : Nat :=
  (x + n - 1) / n * n

theorem alignN_dvd (x n : Nat) : n ∣ alignN x n :=
  ⟨(x + n - 1) / n, Nat.mul_comm _ _⟩

theorem le_alignN (x n : Nat) (hn : 1 ≤ n) : x ≤ alignN x n := by
  unfold alignN
  rw [Nat.mul_comm]
  have h1 := Nat.div_add_mod (x + n - 1) n
  have h2 := Nat.mod_lt (x + n - 1) hn
  revert h1 h2
  generalize (x + n - 1) % n = r
  generalize n * ((x + n - 1) / n) = p
  intro h1 h2
  omega

/-- The primitive `StructType` subclasses of the source (`u64`, `u32`,
`u16`, `u8`, `byte`, `char`), each carrying `SIZE`, `ALIGN` and a
`struct`-module format character. -/
inductive PrimType where
  | u64
  | u32
  | u16
  | u8
  | byte
  | char
deriving DecidableEq

/-- `SIZE` class attribute of each primitive. -/
def PrimType.SIZE : PrimType → Nat
  | .u64 => 8
  | .u32 => 4
  | .u16 => 2
  | .u8 => 1
  | .byte => 1
  | .char => 1

/-- `ALIGN` class attribute of each primitive. -/
def PrimType.ALIGN : PrimType → Nat
  | .u64 => 8
  | .u32 => 4
  | .u16 => 2
  | .u8 => 1
  | .byte => 1
  | .char => 1

/-- Whether the primitive's `FMT` is the character format `"c"` (the one
that makes `unpack_structure` decode an array as ASCII text). -/
def PrimType.fmtChar : PrimType → Bool
  | .char => true
  | _ => false

theorem PrimType.one_le_SIZE (p : PrimType) : 1 ≤ p.SIZE := by
  cases p <;> decide

theorem PrimType.one_le_ALIGN (p : PrimType) : 1 ≤ p.ALIGN := by
  cases p <;> decide

/-- A field's type: either a bare primitive (`IS_ARRAY = False`,
`ARRAY_NUM = 1`) or `Array[prim, num]` (`IS_ARRAY = True`,
`ARRAY_NUM = num`).  The `Array.__class_getitem__` construction only ever
produces these two shapes. -/
inductive FieldType where
  | scalar (prim : PrimType)
  | array (prim : PrimType) (num : Nat)
deriving DecidableEq

/-- The underlying primitive (array types subclass their item type). -/
def FieldType.prim : FieldType → PrimType
  | .scalar p => p
  | .array p _ => p

/-- `ARRAY_NUM` attribute. -/
def FieldType.ARRAY_NUM : FieldType → Nat
  | .scalar _ => 1
  | .array _ n => n

/-- `IS_ARRAY` attribute. -/
def FieldType.IS_ARRAY : FieldType → Bool
  | .scalar _ => false
  | .array _ _ => true

/-- `SIZE` attribute (inherited from the item primitive). -/
def FieldType.SIZE (f : FieldType) : Nat := f.prim.SIZE

/-- `ALIGN` attribute (inherited from the item primitive). -/
def FieldType.ALIGN (f : FieldType) : Nat := f.prim.ALIGN

theorem FieldType.ALIGN_pos (f : FieldType) : 1 ≤ f.ALIGN := by
  cases f <;> exact PrimType.one_le_ALIGN _

/-- A structure descriptor: the ordered `__annotations__` of a
`StructClass` body, i.e. named fields in declaration order. -/
def StructDecl : Type := List (String × FieldType)

/-- The loop of `struct_size`: threads `total_size_bytes` and
`greatest_align` through the fields exactly as the source does
(`total += SIZE*ARRAY_NUM; total = alignN(total, ALIGN)`), then applies the
final `alignN(total, greatest_align)`. -/
def struct_size_go : List (String × FieldType) → Nat → Nat → Nat
  | [], total, greatest => alignN total greatest
  | (_, ft) :: rest, total, greatest =>
      struct_size_go rest (alignN (total + ft.SIZE * ft.ARRAY_NUM) ft.ALIGN)
        (max greatest ft.ALIGN)

/-- Source `struct_size(struct_type)`. -/
def struct_size (st : StructDecl) : Nat :=
  struct_size_go st 0 0

/-- The byte offset at which each field's slice is taken inside
`unpack_structure`/`struct_size`: the running `total_size_bytes` value at
the start of that field's loop iteration. -/
def field_offsets_go : List (String × FieldType) → Nat → List Nat
  | [], _ => []
  | (_, ft) :: rest, total =>
      total :: field_offsets_go rest (alignN (total + ft.SIZE * ft.ARRAY_NUM) ft.ALIGN)

/-- Per-field offsets of a descriptor (one entry per field). -/
def field_offsets (st : StructDecl) : List Nat :=
  field_offsets_go st 0

/-- The running total after the last field, before the final
`alignN(total, greatest_align)`. -/
def end_total_go : List (String × FieldType) → Nat → Nat
  | [], total => total
  | (_, ft) :: rest, total =>
      end_total_go rest (alignN (total + ft.SIZE * ft.ARRAY_NUM) ft.ALIGN)

/-- The pre-final-alignment total of a descriptor. -/
def end_total (st : StructDecl) : Nat :=
  end_total_go st 0

/-- The maximum field alignment of a descriptor (`greatest_align` starts at
0 in the source, hence the 0 base). -/
def max_align (st : StructDecl) : Nat :=
  st.foldr (fun f acc => max f.2.ALIGN acc) 0

theorem offsets_end_shape (st : List (String × FieldType)) (t : Nat) :
    field_offsets_go st t ++ [end_total_go st t] =
      match st with
      | [] => [t]
      | (_, ft) :: rest =>
          t :: (field_offsets_go rest (alignN (t + ft.SIZE * ft.ARRAY_NUM) ft.ALIGN) ++
            [end_total_go rest (alignN (t + ft.SIZE * ft.ARRAY_NUM) ft.ALIGN)]) := by
  cases st with
  | nil => simp [field_offsets_go, end_total_go]
  | cons f rest => cases f; simp [field_offsets_go, end_total_go]

theorem offsets_end_head (st : List (String × FieldType)) (t : Nat) :
    ∃ tl, field_offsets_go st t ++ [end_total_go st t] = t :: tl := by
  cases st with
  | nil => exact ⟨[], by simp [field_offsets_go, end_total_go]⟩
  | cons f rest =>
      obtain ⟨nm, ft⟩ := f
      refine ⟨field_offsets_go rest (alignN (t + ft.SIZE * ft.ARRAY_NUM) ft.ALIGN) ++
        [end_total_go rest (alignN (t + ft.SIZE * ft.ARRAY_NUM) ft.ALIGN)], ?_⟩
      simp [field_offsets_go, end_total_go]

theorem offsets_chain_go (st : List (String × FieldType)) :
    ∀ t, List.Chain' (· ≤ ·) (field_offsets_go st t ++ [end_total_go st t]) := by
  induction st with
  | nil => intro t; simp [field_offsets_go, end_total_go]
  | cons f rest ih =>
      intro t
      obtain ⟨_, ft⟩ := f
      simp only [field_offsets_go, end_total_go, List.cons_append]
      obtain ⟨tl, htl⟩ :=
        offsets_end_head rest (alignN (t + ft.SIZE * ft.ARRAY_NUM) ft.ALIGN)
      rw [htl]
      refine List.Chain'.cons ?_ (htl ▸ ih _)
      calc t ≤ t + ft.SIZE * ft.ARRAY_NUM := Nat.le_add_right _ _
        _ ≤ alignN (t + ft.SIZE * ft.ARRAY_NUM) ft.ALIGN :=
            le_alignN _ _ ft.ALIGN_pos

theorem offsets_aligned_go (st : List (String × FieldType)) :
    ∀ t, (st.zip ((field_offsets_go st t ++ [end_total_go st t]).drop 1)).all
      (fun p => decide (p.1.2.ALIGN ∣ p.2)) = true := by
  induction st with
  | nil => intro t; simp
  | cons f rest ih =>
      intro t
      obtain ⟨nm, ft⟩ := f
      simp only [field_offsets_go, end_total_go, List.cons_append, List.drop_succ_cons,
        List.drop_zero]
      obtain ⟨tl, htl⟩ :=
        offsets_end_head rest (alignN (t + ft.SIZE * ft.ARRAY_NUM) ft.ALIGN)
      rw [htl]
      simp only [List.zip_cons_cons, List.all_cons, Bool.and_eq_true, decide_eq_true_eq]
      constructor
      · exact alignN_dvd _ _
      · have := ih (alignN (t + ft.SIZE * ft.ARRAY_NUM) ft.ALIGN)
        rw [htl] at this
        simpa using this

theorem foldr_max_pull (st : List (String × FieldType)) :
    ∀ g a, st.foldr (fun f acc => max f.2.ALIGN acc) (max g a) =
      max (st.foldr (fun f acc => max f.2.ALIGN acc) g) a := by
  induction st with
  | nil => intro g a; rfl
  | cons f rest ih =>
      intro g a
      simp only [List.foldr_cons, ih g a, Nat.max_assoc]

theorem struct_size_go_eq (st : List (String × FieldType)) :
    ∀ t g, struct_size_go st t g =
      alignN (end_total_go st t) (st.foldr (fun f acc => max f.2.ALIGN acc) g) := by
  induction st with
  | nil => intro t g; rfl
  | cons f rest ih =>
      intro t g
      obtain ⟨nm, ft⟩ := f
      simp only [struct_size_go, end_total_go, List.foldr_cons]
      rw [ih]
      congr 1
      rw [foldr_max_pull rest g ft.ALIGN, Nat.max_comm]

/-- Claim C4 (amended): for every structure descriptor, the computed field
offsets (together with the final pre-padding total) form a nondecreasing
chain; every offset after field `i` — including the final total — is
aligned to field `i`'s alignment (the alignment step happens after each
field is consumed, not before); and the total size of `struct_size` is the
running aligned sum of the field sizes, aligned up to the maximum field
alignment. -/
theorem struct_layout_props (st : StructDecl) :
    List.Chain' (· ≤ ·) (field_offsets st ++ [end_total st]) ∧
    (st.zip ((field_offsets st ++ [end_total st]).drop 1)).all
      (fun p => decide (p.1.2.ALIGN ∣ p.2)) = true ∧
    struct_size st = alignN (end_total st) (max_align st) :=
  ⟨offsets_chain_go st 0, offsets_aligned_go st 0, struct_size_go_eq st 0 0⟩

/-- A two-field descriptor `{a : u8, b : u32}` on which the original claim
fails: field `b` is placed at offset 1, which is not 4-aligned, because the
source aligns the running total only after adding each field's size. -/
def misalignedStruct : StructDecl :=
  [("a", FieldType.scalar .u8), ("b", FieldType.scalar .u32)]

/-- Counterexample to claim C4 as stated: in `misalignedStruct` the second
field has alignment 4 but computed offset 1, so "each field's computed
offset is aligned to that field's own alignment requirement" is false. -/
theorem struct_offsets_own_align_cex :
    ((misalignedStruct.zip (field_offsets misalignedStruct)).all
      (fun p => decide (p.1.2.ALIGN ∣ p.2)) = false) ∧
    field_offsets misalignedStruct = [0, 1] ∧
    (misalignedStruct.map (fun f => f.2.ALIGN)) = [1, 4] := by
  decide

/-- A decoded field value: a single integer (`struct.unpack` of one
primitive), a list of integers (`struct.iter_unpack` over an array), or the
bytes of an ASCII-decoded char array. -/
inductive FieldValue where
  | int (n : Nat)
  | list (l : List Nat)
  | str (s : List Nat)
deriving DecidableEq

/-- `StructClassEndian` of the source.  Every `StructClass` in the script
uses the default `BIG`. -/
inductive StructClassEndian where
  | big
  | little
deriving DecidableEq

/-- Big-endian value of a byte string (what `struct.unpack(">Q"/"I"/"H"/"B")`
computes on its exact-width input). -/
def beBytes (l : List Nat) : Nat :=
  l.foldl (fun acc b => acc * 256 + b) 0

/-- Decode one primitive's bytes with the given endianness
(little-endian reads the bytes in reverse order). -/
def decodePrim (endian : StructClassEndian) (bytes : List Nat) : Nat :=
  match endian with
  | .big => beBytes bytes
  | .little => beBytes bytes.reverse

/-- Fuel-driven chunking used to model `struct.iter_unpack`: split a buffer
into consecutive `itemSize`-byte chunks.  The fuel (initialised to the
buffer length) only exists to make the recursion structural; with
`itemSize ≥ 1` it never runs out. -/
def iter_unpack_go (itemSize : Nat) : Nat → List Nat → List (List Nat)
  | 0, _ => []
  | _, [] => []
  | fuel + 1, b :: rest =>
      (b :: rest).take itemSize :: iter_unpack_go itemSize fuel ((b :: rest).drop itemSize)

/-- The chunks of `struct.iter_unpack(fmt, data)` (values are obtained by
decoding each chunk). -/
def iter_unpack_chunks (itemSize : Nat) (l : List Nat) : List (List Nat) :=
  iter_unpack_go itemSize l.length l

/-- Decoding of one field's slice, as in the body of `unpack_structure`'s
loop:
* char arrays: `bytes(mydata).decode("ASCII")`, which fails with
  `UnicodeDecodeError` on any byte ≥ 128;
* other arrays: `struct.iter_unpack`, which fails with `struct.error`
  unless the slice length is a multiple of the item size;
* scalars: `struct.unpack`, which fails with `struct.error` unless the
  slice length equals the primitive's size. -/
def decodeField (endian : StructClassEndian) (ft : FieldType) (mydata : List Nat) :
    Except GenError FieldValue :=
  match ft with
  | .array p _ =>
      if p.fmtChar then
        if mydata.all (fun b => b < 128) then .ok (.str mydata)
        else .error .unicodeDecodeError
      else
        if mydata.length % p.SIZE = 0 then
          .ok (.list ((iter_unpack_chunks p.SIZE mydata).map (decodePrim endian)))
        else .error .structError
  | .scalar p =>
      if mydata.length = p.SIZE then .ok (.int (decodePrim endian mydata))
      else .error .structError

/-- The loop of `unpack_structure`: for each field, take the slice
`data[total : total + SIZE*ARRAY_NUM]`, decode it, then advance and align
the running total; finally `assert len(data) == total_size_bytes` after the
trailing `alignN(total, greatest_align)`. -/
def unpack_go (endian : StructClassEndian) (data : List Nat) :
    List (String × FieldType) → Nat → Nat → List FieldValue →
    Except GenError (List FieldValue)
  | [], total, greatest, values =>
      if data.length = alignN total greatest then .ok values.reverse
      else .error (.assertFail "len(data) == total_size_bytes")
  | (_, ft) :: rest, total, greatest, values =>
      let size_bytes := ft.SIZE * ft.ARRAY_NUM
      let mydata := (data.drop total).take size_bytes
      match decodeField endian ft mydata with
      | .error e => .error e
      | .ok v =>
          unpack_go endian data rest (alignN (total + size_bytes) ft.ALIGN)
            (max greatest ft.ALIGN) (v :: values)

/-- Source `unpack_structure(data, struct_type, endian)`. -/
def unpack_structure (data : List Nat) (st : StructDecl)
    (endian : StructClassEndian) : Except GenError (List FieldValue) :=
  unpack_go endian data st 0 0 []

/-- Whether every char-array field's slice of `data` (at the offsets the
unpack loop uses, starting from running total `total`) contains only bytes
< 128, i.e. survives the strict ASCII decode. -/
def char_fields_ascii (data : List Nat) :
    List (String × FieldType) → Nat → Bool
  | [], _ => true
  | (_, ft) :: rest, total =>
      let size_bytes := ft.SIZE * ft.ARRAY_NUM
      let mydata := (data.drop total).take size_bytes
      (match ft with
       | .array p _ => if p.fmtChar then mydata.all (fun b => b < 128) else true
       | .scalar _ => true) &&
      char_fields_ascii data rest (alignN (total + size_bytes) ft.ALIGN)

theorem le_struct_size_go (st : List (String × FieldType)) :
    ∀ t g, 1 ≤ g → t ≤ struct_size_go st t g := by
  induction st with
  | nil => intro t g hg; exact le_alignN t g hg
  | cons f rest ih =>
      intro t g hg
      obtain ⟨nm, ft⟩ := f
      simp only [struct_size_go]
      calc t ≤ t + ft.SIZE * ft.ARRAY_NUM := Nat.le_add_right _ _
        _ ≤ alignN (t + ft.SIZE * ft.ARRAY_NUM) ft.ALIGN :=
            le_alignN _ _ ft.ALIGN_pos
        _ ≤ struct_size_go rest (alignN (t + ft.SIZE * ft.ARRAY_NUM) ft.ALIGN)
              (max g ft.ALIGN) :=
            ih _ _ (le_trans hg (Nat.le_max_left _ _))

theorem unpack_go_ok_iff (endian : StructClassEndian) (data : List Nat) :
    ∀ (st : List (String × FieldType)) (total greatest : Nat) (acc : List FieldValue),
      exceptOk (unpack_go endian data st total greatest acc) = true ↔
        (data.length = struct_size_go st total greatest ∧
          char_fields_ascii data st total = true) := by
  intro st
  induction st with
  | nil =>
      intro total greatest acc
      simp only [unpack_go, struct_size_go, char_fields_ascii]
      split
      · next h => simp [exceptOk, h]
      · next h => simp [exceptOk, h]
  | cons f rest ih =>
      intro total greatest acc
      obtain ⟨nm, ft⟩ := f
      have hgo : 1 ≤ max greatest ft.ALIGN :=
        le_trans ft.ALIGN_pos (Nat.le_max_right _ _)
      have hbound : total + ft.SIZE * ft.ARRAY_NUM ≤
          struct_size_go rest (alignN (total + ft.SIZE * ft.ARRAY_NUM) ft.ALIGN)
            (max greatest ft.ALIGN) :=
        le_trans (le_alignN _ _ ft.ALIGN_pos) (le_struct_size_go _ _ _ hgo)
      have hmdlen : ((data.drop total).take (ft.SIZE * ft.ARRAY_NUM)).length =
          min (ft.SIZE * ft.ARRAY_NUM) (data.length - total) := by
        simp [List.length_take, List.length_drop]
      rcases ft with p | ⟨p, n⟩
      · -- scalar field: struct.unpack demands the exact primitive size
        have hsz : (FieldType.scalar p).SIZE * (FieldType.scalar p).ARRAY_NUM = p.SIZE := by
          simp [FieldType.SIZE, FieldType.ARRAY_NUM, FieldType.prim]
        rw [hsz] at hbound hmdlen
        simp only [unpack_go, struct_size_go, char_fields_ascii, decodeField, hsz,
          Bool.true_and]
        by_cases hc : ((data.drop total).take p.SIZE).length = p.SIZE
        · rw [if_pos hc]
          exact ih _ _ _
        · rw [if_neg hc]
          simp only [exceptOk, Bool.false_eq_true, false_iff, not_and]
          intro hlen
          exfalso
          apply hc
          rw [hmdlen]
          have := hbound
          rw [← hlen] at this
          omega
      · by_cases hchar : p.fmtChar = true
        · -- char array: decode("ASCII") demands all bytes < 128
          simp only [unpack_go, struct_size_go, char_fields_ascii, decodeField, hchar,
            if_true]
          by_cases hall :
              ((data.drop total).take ((FieldType.array p n).SIZE *
                (FieldType.array p n).ARRAY_NUM)).all (fun b => b < 128) = true
          · rw [if_pos hall]
            rw [ih _ _ _]
            simp [hall]
          · rw [if_neg hall]
            simp only [exceptOk, Bool.false_eq_true, false_iff, not_and]
            intro hlen
            simp [hall]
        · -- non-char array: iter_unpack demands a multiple of the item size
          have hchar' : p.fmtChar = false := by
            cases h : p.fmtChar
            · rfl
            · exact absurd h hchar
          simp only [unpack_go, struct_size_go, char_fields_ascii, decodeField, hchar',
            Bool.false_eq_true, if_false, Bool.true_and]
          by_cases hmod :
              ((data.drop total).take ((FieldType.array p n).SIZE *
                (FieldType.array p n).ARRAY_NUM)).length % p.SIZE = 0
          · rw [if_pos hmod]
            exact ih _ _ _
          · rw [if_neg hmod]
            simp only [exceptOk, Bool.false_eq_true, false_iff, not_and]
            intro hlen
            exfalso
            apply hmod
            have hsz : (FieldType.array p n).SIZE * (FieldType.array p n).ARRAY_NUM =
                p.SIZE * n := by
              simp [FieldType.SIZE, FieldType.ARRAY_NUM, FieldType.prim]
            rw [hsz] at hmdlen hbound hlen ⊢
            have hb := hbound
            rw [← hlen] at hb
            have : ((data.drop total).take (p.SIZE * n)).length = p.SIZE * n := by
              rw [hmdlen]; omega
            rw [this]
            exact Nat.mul_mod_right _ _

/-- Claim C5 (amended): unpacking succeeds iff the buffer's length equals
the descriptor's computed size AND every char-array field's slice contains
only bytes < 128 (the script decodes char arrays with strict ASCII, which
rejects any byte ≥ 128 even in an exact-length buffer); in particular a
buffer of any other length always fails. -/
theorem unpack_structure_ok_iff (data : List Nat) (st : StructDecl)
    (endian : StructClassEndian) :
    exceptOk (unpack_structure data st endian) = true ↔
      (data.length = struct_size st ∧ char_fields_ascii data st 0 = true) :=
  unpack_go_ok_iff endian data st 0 0 []

/-- A one-field descriptor holding a single-char array. -/
def charStruct : StructDecl :=
  [("rom_name", FieldType.array .char 1)]

/-- Counterexample to claim C5 as stated: the buffer `[200]` has exactly
the computed size of `charStruct` (1 byte), yet unpacking fails, because
byte 200 is not ASCII. -/
theorem unpack_exact_len_cex :
    struct_size charStruct = 1 ∧
    exceptOk (unpack_structure [200] charStruct .big) = false := by
  decide

/-- A one-field descriptor holding a single big-endian u32. -/
def u32Struct : StructDecl :=
  [("word", FieldType.scalar .u32)]

/-- Concrete instantiation of `unpack_structure_ok_iff`: a 4-byte buffer
unpacks successfully against `u32Struct`. -/
theorem unpack_structure_ok_iff_witness :
    exceptOk (unpack_structure [1, 2, 3, 4] u32Struct .big) = true :=
  (unpack_structure_ok_iff [1, 2, 3, 4] u32Struct .big).mpr (by decide)

/-- Model of an ELF section header after `read_shdr` has attached its
content and `read_name` has resolved its name against the section-name
string table: the fields of `ELF32_SHDR` that the pipeline inspects. -/
structure SectionModel where
  name : String
  sh_addr : Nat
  sh_size : Nat
  data : List Nat
deriving DecidableEq

/-- Number of the three section slots already filled (the loop's `n`). -/
def numSome : Option SectionModel → Option SectionModel → Option SectionModel → Nat
  | none, none, none => 0
  | none, none, some _ => 1
  | none, some _, none => 1
  | some _, none, none => 1
  | none, some _, some _ => 2
  | some _, none, some _ => 2
  | some _, some _, none => 2
  | some _, some _, some _ => 3

/-- How many occurrences of a name a prefix must still contribute for the
slot to be exactly filled: 0 if the slot is already taken, 1 otherwise. -/
def need : Option SectionModel → Nat
  | none => 1
  | some _ => 0

/-- Occurrences of a section name in a list of sections. -/
def count_name (nm : String) (l : List SectionModel) : Nat :=
  l.countP (fun s => decide (s.name = nm))

theorem count_name_cons (nm : String) (a : SectionModel) (l : List SectionModel) :
    count_name nm (a :: l) = count_name nm l + (if a.name = nm then 1 else 0) := by
  simp [count_name, List.countP_cons]

/-- The `for shdr in shdrs: ... else: assert False` loop of `main` that
locates `.symtab`, `.strtab` and `..makerom`: each name match asserts its
slot is still empty, fills it and increments `n`; as soon as `n == 3` the
loop `break`s (returning the filled slots); running off the end of the list
without a break is the `"Did not find all required sections"` assertion. -/
def findReqGo : List SectionModel → Option SectionModel → Option SectionModel →
    Option SectionModel → Nat →
    Except GenError (Option SectionModel × Option SectionModel × Option SectionModel)
  | [], _, _, _, _ => .error (.assertFail "Did not find all required sections")
  | shdr :: rest, symtab, strtab, makerom, n =>
    if shdr.name = ".symtab" then
      match symtab with
      | some _ => .error (.assertFail "symtab is None")
      | none =>
          if n + 1 = 3 then .ok (some shdr, strtab, makerom)
          else findReqGo rest (some shdr) strtab makerom (n + 1)
    else if shdr.name = ".strtab" then
      match strtab with
      | some _ => .error (.assertFail "strtab is None")
      | none =>
          if n + 1 = 3 then .ok (symtab, some shdr, makerom)
          else findReqGo rest symtab (some shdr) makerom (n + 1)
    else if shdr.name = "..makerom" then
      match makerom with
      | some _ => .error (.assertFail "makerom is None")
      | none =>
          if n + 1 = 3 then .ok (symtab, strtab, some shdr)
          else findReqGo rest symtab strtab (some shdr) (n + 1)
    else
      if n = 3 then .ok (symtab, strtab, makerom)
      else findReqGo rest symtab strtab makerom n

/-- The required-sections search of `main`, started with all slots empty. -/
def findRequired (shdrs : List SectionModel) :
    Except GenError (Option SectionModel × Option SectionModel × Option SectionModel) :=
  findReqGo shdrs none none none 0

theorem exists_take_cons_iff {α : Type} (P : List α → Prop) (a : α) (l : List α) :
    (∃ k, k ≤ (a :: l).length ∧ P ((a :: l).take k)) ↔
      (P [] ∨ ∃ k, k ≤ l.length ∧ P (a :: l.take k)) := by
  constructor
  · rintro ⟨k, hk, hP⟩
    cases k with
    | zero => exact Or.inl (by simpa using hP)
    | succ k =>
        exact Or.inr ⟨k, by simpa using hk, by simpa [List.take_succ_cons] using hP⟩
  · rintro (hP | ⟨k, hk, hP⟩)
    · exact ⟨0, Nat.zero_le _, by simpa using hP⟩
    · exact ⟨k + 1, by simpa using hk, by simpa [List.take_succ_cons] using hP⟩

theorem ex_counts_cons (a : SectionModel) (l : List SectionModel) (n1 n2 n3 : Nat) :
    (∃ k, k ≤ l.length ∧
      count_name ".symtab" (a :: l.take k) = n1 ∧
      count_name ".strtab" (a :: l.take k) = n2 ∧
      count_name "..makerom" (a :: l.take k) = n3) ↔
    (∃ k, k ≤ l.length ∧
      count_name ".symtab" (l.take k) + (if a.name = ".symtab" then 1 else 0) = n1 ∧
      count_name ".strtab" (l.take k) + (if a.name = ".strtab" then 1 else 0) = n2 ∧
      count_name "..makerom" (l.take k) + (if a.name = "..makerom" then 1 else 0) = n3) := by
  constructor
  · rintro ⟨k, hk, h1, h2, h3⟩
    exact ⟨k, hk, by rw [count_name_cons] at h1; exact h1,
      by rw [count_name_cons] at h2; exact h2,
      by rw [count_name_cons] at h3; exact h3⟩
  · rintro ⟨k, hk, h1, h2, h3⟩
    exact ⟨k, hk, by rw [count_name_cons]; exact h1,
      by rw [count_name_cons]; exact h2,
      by rw [count_name_cons]; exact h3⟩


theorem need_none : need none = 1 := rfl

theorem need_some (s : SectionModel) : need (some s) = 0 := rfl

theorem numSome_fst (a : SectionModel) (st mk : Option SectionModel) :
    numSome (some a) st mk = numSome none st mk + 1 := by
  cases st <;> cases mk <;> rfl

theorem numSome_snd (sy : Option SectionModel) (b : SectionModel) (mk : Option SectionModel) :
    numSome sy (some b) mk = numSome sy none mk + 1 := by
  cases sy <;> cases mk <;> rfl

theorem numSome_thd (sy st : Option SectionModel) (c : SectionModel) :
    numSome sy st (some c) = numSome sy st none + 1 := by
  cases sy <;> cases st <;> rfl

theorem needs_pos (sy st mk : Option SectionModel) (h : numSome sy st mk ≤ 2) :
    1 ≤ need sy + need st + need mk := by
  cases sy <;> cases st <;> cases mk <;> simp_all [numSome, need]

theorem break_needs_fst (st mk : Option SectionModel)
    (h : numSome none st mk + 1 = 3) : need st = 0 ∧ need mk = 0 := by
  cases st <;> cases mk <;> simp_all [numSome, need]

theorem break_needs_snd (sy mk : Option SectionModel)
    (h : numSome sy none mk + 1 = 3) : need sy = 0 ∧ need mk = 0 := by
  cases sy <;> cases mk <;> simp_all [numSome, need]

theorem break_needs_thd (sy st : Option SectionModel)
    (h : numSome sy st none + 1 = 3) : need sy = 0 ∧ need st = 0 := by
  cases sy <;> cases st <;> simp_all [numSome, need]

theorem findReqGo_ok_iff (l : List SectionModel) :
    ∀ sy st mk : Option SectionModel, numSome sy st mk ≤ 2 →
      (exceptOk (findReqGo l sy st mk (numSome sy st mk)) = true ↔
        ∃ k, k ≤ l.length ∧
          count_name ".symtab" (l.take k) = need sy ∧
          count_name ".strtab" (l.take k) = need st ∧
          count_name "..makerom" (l.take k) = need mk) := by
  induction l with
  | nil =>
      intro sy st mk hle
      constructor
      · intro h
        simp [findReqGo, exceptOk] at h
      · rintro ⟨k, hk, h1, h2, h3⟩
        exfalso
        have hk0 : k = 0 := by simpa using hk
        subst hk0
        simp only [List.take_zero] at h1 h2 h3
        have := needs_pos sy st mk hle
        simp [count_name] at h1 h2 h3
        omega
  | cons a l ih =>
      intro sy st mk hle
      rw [exists_take_cons_iff
        (fun pre => count_name ".symtab" pre = need sy ∧
          count_name ".strtab" pre = need st ∧
          count_name "..makerom" pre = need mk) a l]
      have hPnil : ¬(count_name ".symtab" ([] : List SectionModel) = need sy ∧
          count_name ".strtab" ([] : List SectionModel) = need st ∧
          count_name "..makerom" ([] : List SectionModel) = need mk) := by
        rintro ⟨h1, h2, h3⟩
        have := needs_pos sy st mk hle
        simp [count_name] at h1 h2 h3
        omega
      by_cases h1 : a.name = ".symtab"
      · have h2 : ¬(a.name = ".strtab") := by rw [h1]; decide
        have h3 : ¬(a.name = "..makerom") := by rw [h1]; decide
        cases sy with
        | some s =>
            have heq : findReqGo (a :: l) (some s) st mk (numSome (some s) st mk) =
                .error (.assertFail "symtab is None") := by
              simp only [findReqGo]
              rw [if_pos h1]
            rw [heq]
            constructor
            · intro h; simp [exceptOk] at h
            · rintro (hP | ⟨k, hk, hc1, hc2, hc3⟩)
              · exact absurd hP hPnil
              · exfalso
                rw [count_name_cons, if_pos h1, need_some] at hc1
                omega
        | none =>
            by_cases hbreak : numSome none st mk + 1 = 3
            · have heq : findReqGo (a :: l) none st mk (numSome none st mk) =
                  .ok (some a, st, mk) := by
                simp only [findReqGo]
                rw [if_pos h1, if_pos hbreak]
              rw [heq]
              obtain ⟨hnst, hnmk⟩ := break_needs_fst st mk hbreak
              simp only [exceptOk, true_iff]
              refine Or.inr ⟨0, Nat.zero_le _, ?_, ?_, ?_⟩
              · rw [count_name_cons, if_pos h1]
                simp [count_name, need_none]
              · rw [count_name_cons, if_neg h2, hnst]
                simp [count_name]
              · rw [count_name_cons, if_neg h3, hnmk]
                simp [count_name]
            · have heq : findReqGo (a :: l) none st mk (numSome none st mk) =
                  findReqGo l (some a) st mk (numSome none st mk + 1) := by
                simp only [findReqGo]
                rw [if_pos h1, if_neg hbreak]
              rw [heq, ← numSome_fst a st mk]
              have hle' : numSome (some a) st mk ≤ 2 := by
                rw [numSome_fst a st mk]; omega
              rw [ih (some a) st mk hle']
              constructor
              · rintro ⟨k, hk, hc1, hc2, hc3⟩
                refine Or.inr ⟨k, hk, ?_, ?_, ?_⟩
                · rw [need_some] at hc1
                  rw [count_name_cons, if_pos h1, need_none]
                  omega
                · rw [count_name_cons, if_neg h2]
                  omega
                · rw [count_name_cons, if_neg h3]
                  omega
              · rintro (hP | ⟨k, hk, hc1, hc2, hc3⟩)
                · exact absurd hP hPnil
                · rw [count_name_cons, if_pos h1, need_none] at hc1
                  rw [count_name_cons, if_neg h2] at hc2
                  rw [count_name_cons, if_neg h3] at hc3
                  refine ⟨k, hk, ?_, ?_, ?_⟩
                  · rw [need_some]; omega
                  · omega
                  · omega
      · by_cases h2 : a.name = ".strtab"
        · have h3 : ¬(a.name = "..makerom") := by rw [h2]; decide
          cases st with
          | some s =>
              have heq : findReqGo (a :: l) sy (some s) mk (numSome sy (some s) mk) =
                  .error (.assertFail "strtab is None") := by
                simp only [findReqGo]
                rw [if_neg h1, if_pos h2]
              rw [heq]
              constructor
              · intro h; simp [exceptOk] at h
              · rintro (hP | ⟨k, hk, hc1, hc2, hc3⟩)
                · exact absurd hP hPnil
                · exfalso
                  rw [count_name_cons, if_pos h2, need_some] at hc2
                  omega
          | none =>
              by_cases hbreak : numSome sy none mk + 1 = 3
              · have heq : findReqGo (a :: l) sy none mk (numSome sy none mk) =
                    .ok (sy, some a, mk) := by
                  simp only [findReqGo]
                  rw [if_neg h1, if_pos h2, if_pos hbreak]
                rw [heq]
                obtain ⟨hnsy, hnmk⟩ := break_needs_snd sy mk hbreak
                simp only [exceptOk, true_iff]
                refine Or.inr ⟨0, Nat.zero_le _, ?_, ?_, ?_⟩
                · rw [count_name_cons, if_neg h1, hnsy]
                  simp [count_name]
                · rw [count_name_cons, if_pos h2]
                  simp [count_name, need_none]
                · rw [count_name_cons, if_neg h3, hnmk]
                  simp [count_name]
              · have heq : findReqGo (a :: l) sy none mk (numSome sy none mk) =
                    findReqGo l sy (some a) mk (numSome sy none mk + 1) := by
                  simp only [findReqGo]
                  rw [if_neg h1, if_pos h2, if_neg hbreak]
                rw [heq, ← numSome_snd sy a mk]
                have hle' : numSome sy (some a) mk ≤ 2 := by
                  rw [numSome_snd sy a mk]; omega
                rw [ih sy (some a) mk hle']
                constructor
                · rintro ⟨k, hk, hc1, hc2, hc3⟩
                  refine Or.inr ⟨k, hk, ?_, ?_, ?_⟩
                  · rw [count_name_cons, if_neg h1]
                    omega
                  · rw [need_some] at hc2
                    rw [count_name_cons, if_pos h2, need_none]
                    omega
                  · rw [count_name_cons, if_neg h3]
                    omega
                · rintro (hP | ⟨k, hk, hc1, hc2, hc3⟩)
                  · exact absurd hP hPnil
                  · rw [count_name_cons, if_neg h1] at hc1
                    rw [count_name_cons, if_pos h2, need_none] at hc2
                    rw [count_name_cons, if_neg h3] at hc3
                    refine ⟨k, hk, ?_, ?_, ?_⟩
                    · omega
                    · rw [need_some]; omega
                    · omega
        · by_cases h3 : a.name = "..makerom"
          · cases mk with
            | some s =>
                have heq : findReqGo (a :: l) sy st (some s) (numSome sy st (some s)) =
                    .error (.assertFail "makerom is None") := by
                  simp only [findReqGo]
                  rw [if_neg h1, if_neg h2, if_pos h3]
                rw [heq]
                constructor
                · intro h; simp [exceptOk] at h
                · rintro (hP | ⟨k, hk, hc1, hc2, hc3⟩)
                  · exact absurd hP hPnil
                  · exfalso
                    rw [count_name_cons, if_pos h3, need_some] at hc3
                    omega
            | none =>
                by_cases hbreak : numSome sy st none + 1 = 3
                · have heq : findReqGo (a :: l) sy st none (numSome sy st none) =
                      .ok (sy, st, some a) := by
                    simp only [findReqGo]
                    rw [if_neg h1, if_neg h2, if_pos h3, if_pos hbreak]
                  rw [heq]
                  obtain ⟨hnsy, hnst⟩ := break_needs_thd sy st hbreak
                  simp only [exceptOk, true_iff]
                  refine Or.inr ⟨0, Nat.zero_le _, ?_, ?_, ?_⟩
                  · rw [count_name_cons, if_neg h1, hnsy]
                    simp [count_name]
                  · rw [count_name_cons, if_neg h2, hnst]
                    simp [count_name]
                  · rw [count_name_cons, if_pos h3]
                    simp [count_name, need_none]
                · have heq : findReqGo (a :: l) sy st none (numSome sy st none) =
                      findReqGo l sy st (some a) (numSome sy st none + 1) := by
                    simp only [findReqGo]
                    rw [if_neg h1, if_neg h2, if_pos h3, if_neg hbreak]
                  rw [heq, ← numSome_thd sy st a]
                  have hle' : numSome sy st (some a) ≤ 2 := by
                    rw [numSome_thd sy st a]; omega
                  rw [ih sy st (some a) hle']
                  constructor
                  · rintro ⟨k, hk, hc1, hc2, hc3⟩
                    refine Or.inr ⟨k, hk, ?_, ?_, ?_⟩
                    · rw [count_name_cons, if_neg h1]
                      omega
                    · rw [count_name_cons, if_neg h2]
                      omega
                    · rw [need_some] at hc3
                      rw [count_name_cons, if_pos h3, need_none]
                      omega
                  · rintro (hP | ⟨k, hk, hc1, hc2, hc3⟩)
                    · exact absurd hP hPnil
                    · rw [count_name_cons, if_neg h1] at hc1
                      rw [count_name_cons, if_neg h2] at hc2
                      rw [count_name_cons, if_pos h3, need_none] at hc3
                      refine ⟨k, hk, ?_, ?_, ?_⟩
                      · omega
                      · omega
                      · rw [need_some]; omega
          · have hn3 : ¬(numSome sy st mk = 3) := by omega
            have heq : findReqGo (a :: l) sy st mk (numSome sy st mk) =
                findReqGo l sy st mk (numSome sy st mk) := by
              simp only [findReqGo]
              rw [if_neg h1, if_neg h2, if_neg h3, if_neg hn3]
            rw [heq, ih sy st mk hle]
            constructor
            · rintro ⟨k, hk, hc1, hc2, hc3⟩
              refine Or.inr ⟨k, hk, ?_, ?_, ?_⟩
              · rw [count_name_cons, if_neg h1]
                omega
              · rw [count_name_cons, if_neg h2]
                omega
              · rw [count_name_cons, if_neg h3]
                omega
            · rintro (hP | ⟨k, hk, hc1, hc2, hc3⟩)
              · exact ⟨0, Nat.zero_le _, by simpa using hP.1, by simpa using hP.2.1,
                  by simpa using hP.2.2⟩
              · rw [count_name_cons, if_neg h1] at hc1
                rw [count_name_cons, if_neg h2] at hc2
                rw [count_name_cons, if_neg h3] at hc3
                exact ⟨k, hk, by omega, by omega, by omega⟩

/-- Claim C6 (amended): the required-sections scan succeeds iff some prefix
of the section list contains exactly one `.symtab`, one `.strtab` and one
`..makerom` (the loop `break`s at the first complete triple).  Hence the
absence of any of the three is fatal, and a duplicate is fatal exactly when
it occurs before the triple completes; a duplicate occurring after the
first complete triple is NOT detected. -/
theorem findRequired_ok_iff (shdrs : List SectionModel) :
    exceptOk (findRequired shdrs) = true ↔
      ∃ k, k ≤ shdrs.length ∧
        count_name ".symtab" (shdrs.take k) = 1 ∧
        count_name ".strtab" (shdrs.take k) = 1 ∧
        count_name "..makerom" (shdrs.take k) = 1 := by
  have h := findReqGo_ok_iff shdrs none none none (by simp [numSome])
  simpa [findRequired, numSome, need] using h

/-- A `.symtab` section with empty content. -/
def secSymtab : SectionModel := ⟨".symtab", 0, 0, []⟩

/-- A `.strtab` section with empty content. -/
def secStrtab : SectionModel := ⟨".strtab", 0, 0, []⟩

/-- A `..makerom` section with empty content. -/
def secMakerom : SectionModel := ⟨"..makerom", 0, 0, []⟩

/-- Counterexample to claim C6 as stated: an input with TWO `.symtab`
sections (the second after the first complete triple) is accepted, because
the search loop breaks as soon as `n == 3`. -/
theorem findRequired_dup_accepted_cex :
    count_name ".symtab" [secSymtab, secStrtab, secMakerom, secSymtab] = 2 ∧
    exceptOk (findRequired [secSymtab, secStrtab, secMakerom, secSymtab]) = true := by
  decide

/-- Concrete instantiation of `findRequired_ok_iff`: the canonical
three-section input is accepted. -/
theorem findRequired_ok_iff_witness :
    exceptOk (findRequired [secSymtab, secStrtab, secMakerom]) = true :=
  (findRequired_ok_iff [secSymtab, secStrtab, secMakerom]).mpr
    ⟨3, by decide, by decide, by decide, by decide⟩

/-- An ELF symbol record (`ELF32_SYM`), as unpacked from the symbol table. -/
structure ELF32_SYM where
  st_name : Nat
  st_value : Nat
  st_size : Nat
  st_info : Nat
  st_other : Nat
  st_shndx : Nat
deriving DecidableEq

/-- Python `s[n:]` on a text string. -/
def strDrop (s : String) (n : Nat) : String :=
  String.mk (s.data.drop n)

/-- Python `s.startswith(p)`. -/
def strStartsWith (s p : String) : Bool :=
  decide (s.data.take p.data.length = p.data)

/-- Python `s.endswith(p)`. -/
def strEndsWith (s p : String) : Bool :=
  decide (s.data.drop (s.data.length - p.data.length) = p.data)

/-- The overlay-enumeration loop of `main`: for every section, names
starting with `..ovl_` must be at or above `0x80800000` and all others
below it (both enforced by `assert`); overlay sections not ending in
`.bss` look up `_<name[2:]>SegmentTextSize` with a raw dictionary access
(`symbols_forname[...]`, a `KeyError` if absent) and are appended to the
overlay list when that symbol's value is nonzero. -/
def enumOverlaysGo (symmap : String → Option ELF32_SYM) :
    List SectionModel → List String → Except GenError (List String)
  | [], acc => .ok acc.reverse
  | shdr :: rest, acc =>
    if strStartsWith shdr.name "..ovl_" then
      if 0x80800000 ≤ shdr.sh_addr then
        if strEndsWith shdr.name ".bss" then
          enumOverlaysGo symmap rest acc
        else
          match symmap ("_" ++ strDrop shdr.name 2 ++ "SegmentTextSize") with
          | none => .error (.keyError ("_" ++ strDrop shdr.name 2 ++ "SegmentTextSize"))
          | some sym =>
              if sym.st_value ≠ 0 then enumOverlaysGo symmap rest (shdr.name :: acc)
              else enumOverlaysGo symmap rest acc
      else .error (.assertFail "vaddr >= 0x80800000")
    else
      if shdr.sh_addr < 0x80800000 then enumOverlaysGo symmap rest acc
      else .error (.assertFail "vaddr < 0x80800000")

/-- Overlay-list generation over all sections, starting from an empty
accumulator. -/
def enumOverlays (symmap : String → Option ELF32_SYM) (shdrs : List SectionModel) :
    Except GenError (List String) :=
  enumOverlaysGo symmap shdrs []

theorem enumOverlaysGo_violation (symmap : String → Option ELF32_SYM)
    (s : SectionModel)
    (hviol : ¬(strStartsWith s.name "..ovl_" = true ↔ 0x80800000 ≤ s.sh_addr)) :
    ∀ (shdrs : List SectionModel) (acc : List String), s ∈ shdrs →
      exceptOk (enumOverlaysGo symmap shdrs acc) = false := by
  intro shdrs
  induction shdrs with
  | nil => intro acc h; cases h
  | cons a rest ih =>
      intro acc hmem
      rcases List.mem_cons.mp hmem with rfl | hmem'
      · simp only [enumOverlaysGo]
        by_cases hovl : strStartsWith s.name "..ovl_" = true
        · have haddr : ¬(0x80800000 ≤ s.sh_addr) := fun h => hviol ⟨fun _ => h, fun _ => hovl⟩
          rw [if_pos hovl, if_neg haddr]
          rfl
        · have haddr : 0x80800000 ≤ s.sh_addr := by
            by_contra h
            exact hviol ⟨fun h' => absurd h' hovl, fun h' => absurd h' h⟩
          rw [if_neg hovl, if_neg (by omega : ¬(s.sh_addr < 0x80800000))]
          rfl
      · simp only [enumOverlaysGo]
        by_cases hovl : strStartsWith a.name "..ovl_" = true
        · rw [if_pos hovl]
          by_cases haddr : 0x80800000 ≤ a.sh_addr
          · rw [if_pos haddr]
            by_cases hbss : strEndsWith a.name ".bss" = true
            · rw [if_pos hbss]
              exact ih _ hmem'
            · rw [if_neg hbss]
              cases hsym : symmap ("_" ++ strDrop a.name 2 ++ "SegmentTextSize") with
              | none => rfl
              | some sym =>
                  show exceptOk (if sym.st_value ≠ 0 then
                      enumOverlaysGo symmap rest (a.name :: acc)
                    else enumOverlaysGo symmap rest acc) = false
                  by_cases hval : sym.st_value ≠ 0
                  · rw [if_pos hval]
                    exact ih _ hmem'
                  · rw [if_neg hval]
                    exact ih _ hmem'
          · rw [if_neg haddr]
            rfl
        · rw [if_neg hovl]
          by_cases hlt : a.sh_addr < 0x80800000
          · rw [if_pos hlt]
            exact ih _ hmem'
          · rw [if_neg hlt]
            rfl

/-- Claim C3: the classifier enforces, for every section, the biconditional
"name starts with the overlay prefix `..ovl_` iff virtual address is at
least `0x80800000`"; any section violating either direction makes overlay
enumeration fail (a fatal assertion). -/
theorem classifier_violation_fatal (symmap : String → Option ELF32_SYM)
    (shdrs : List SectionModel) (s : SectionModel) (hmem : s ∈ shdrs)
    (hviol : ¬(strStartsWith s.name "..ovl_" = true ↔ 0x80800000 ≤ s.sh_addr)) :
    exceptOk (enumOverlays symmap shdrs) = false :=
  enumOverlaysGo_violation symmap s hviol shdrs [] hmem

/-- An overlay-named section placed below the address threshold. -/
def secBadOverlay : SectionModel := ⟨"..ovl_bad", 0x1000, 0, []⟩

/-- Concrete instantiation of `classifier_violation_fatal`: a section named
`..ovl_bad` at address 0x1000 aborts overlay enumeration. -/
theorem classifier_violation_fatal_witness :
    exceptOk (enumOverlays (fun _ => none) [secBadOverlay]) = false :=
  classifier_violation_fatal (fun _ => none) [secBadOverlay] secBadOverlay
    (List.mem_singleton.mpr rfl) (by decide)

theorem enumOverlaysGo_missing_symbol (symmap : String → Option ELF32_SYM)
    (s : SectionModel)
    (hovl : strStartsWith s.name "..ovl_" = true)
    (hbss : strEndsWith s.name ".bss" = false)
    (hnone : symmap ("_" ++ strDrop s.name 2 ++ "SegmentTextSize") = none) :
    ∀ (shdrs : List SectionModel) (acc : List String),
      s ∈ shdrs →
      (∀ t ∈ shdrs, (strStartsWith t.name "..ovl_" = true ↔ 0x80800000 ≤ t.sh_addr)) →
      ∃ key, enumOverlaysGo symmap shdrs acc = .error (.keyError key) := by
  intro shdrs
  induction shdrs with
  | nil => intro acc h _; cases h
  | cons a rest ih =>
      intro acc hmem hconf
      have hconfa := hconf a (List.mem_cons_self a rest)
      have hconfrest : ∀ t ∈ rest,
          (strStartsWith t.name "..ovl_" = true ↔ 0x80800000 ≤ t.sh_addr) :=
        fun t ht => hconf t (List.mem_cons_of_mem a ht)
      simp only [enumOverlaysGo]
      by_cases hovla : strStartsWith a.name "..ovl_" = true
      · rw [if_pos hovla, if_pos (hconfa.mp hovla)]
        by_cases hbssa : strEndsWith a.name ".bss" = true
        · rw [if_pos hbssa]
          rcases List.mem_cons.mp hmem with rfl | hmem'
          · rw [hbss] at hbssa
            cases hbssa
          · exact ih _ hmem' hconfrest
        · rw [if_neg hbssa]
          cases hsym : symmap ("_" ++ strDrop a.name 2 ++ "SegmentTextSize") with
          | none => exact ⟨_, rfl⟩
          | some sym =>
              show ∃ key, (if sym.st_value ≠ 0 then
                  enumOverlaysGo symmap rest (a.name :: acc)
                else enumOverlaysGo symmap rest acc) = .error (.keyError key)
              rcases List.mem_cons.mp hmem with rfl | hmem'
              · rw [hnone] at hsym
                cases hsym
              · by_cases hval : sym.st_value ≠ 0
                · rw [if_pos hval]
                  exact ih _ hmem' hconfrest
                · rw [if_neg hval]
                  exact ih _ hmem' hconfrest
      · rw [if_neg hovla]
        have hlt : a.sh_addr < 0x80800000 := by
          by_contra h
          exact hovla (hconfa.mpr (by omega))
        rw [if_pos hlt]
        rcases List.mem_cons.mp hmem with rfl | hmem'
        · exact absurd hovl hovla
        · exact ih _ hmem' hconfrest

/-- Claim C9: for an overlay-prefixed, non-bss section whose
`_<name[2:]>SegmentTextSize` symbol is absent from the symbol map, overlay
enumeration fails with a raw `KeyError` from the unguarded dictionary
lookup (assuming every section satisfies the address classifier, so that
no assertion fires first); the symbol's presence is an unstated
precondition of overlay-list generation. -/
theorem overlay_missing_textsize_keyerror (symmap : String → Option ELF32_SYM)
    (shdrs : List SectionModel) (s : SectionModel)
    (hmem : s ∈ shdrs)
    (hovl : strStartsWith s.name "..ovl_" = true)
    (hbss : strEndsWith s.name ".bss" = false)
    (hnone : symmap ("_" ++ strDrop s.name 2 ++ "SegmentTextSize") = none)
    (hconf : ∀ t ∈ shdrs,
      (strStartsWith t.name "..ovl_" = true ↔ 0x80800000 ≤ t.sh_addr)) :
    ∃ key, enumOverlays symmap shdrs = .error (.keyError key) :=
  enumOverlaysGo_missing_symbol symmap s hovl hbss hnone shdrs [] hmem hconf

/-- An overlay section, correctly placed, whose text-size symbol will be
missing from an empty symbol map. -/
def secOvlNoSym : SectionModel := ⟨"..ovl_kaleido", 0x80800000, 0x100, []⟩

/-- Concrete instantiation of `overlay_missing_textsize_keyerror`: with an
empty symbol map, enumerating `[secOvlNoSym]` raises a `KeyError`. -/
theorem overlay_missing_textsize_keyerror_witness :
    ∃ key, enumOverlays (fun _ => none) [secOvlNoSym] = .error (.keyError key) :=
  overlay_missing_textsize_keyerror (fun _ => none) [secOvlNoSym] secOvlNoSym
    (List.mem_singleton.mpr rfl) (by decide) (by decide) rfl (by decide)

/-- `v in range(start, end)` where `start = shdr.sh_addr` and
`end = start + shdr.sh_size`. -/
def sectionContains (shdr : SectionModel) (v : Nat) : Bool :=
  decide (shdr.sh_addr ≤ v) && decide (v < shdr.sh_addr + shdr.sh_size)

/-- The extracted slice `shdr.data[offset : end_v - start]` with
`offset = start_v - start`, exactly as in the microcode loop. -/
def ucodeSlice (shdr : SectionModel) (sv ev : Nat) : List Nat :=
  (shdr.data.drop (sv - shdr.sh_addr)).take
    ((ev - shdr.sh_addr) - (sv - shdr.sh_addr))

/-- One pass of the microcode section-location loop for a single
start/end symbol pair: a section containing the start value must be unique
(`assert ucode_text is None` on a second match), and the end value must lie
in `range(start, end+1)` of that same section. -/
def findUcodeGo (sv ev : Nat) : List SectionModel → Option (List Nat) →
    Except GenError (Option (List Nat))
  | [], acc => .ok acc
  | shdr :: rest, acc =>
      if sectionContains shdr sv then
        match acc with
        | some _ => .error (.assertFail "Overlapping address ranges present in elf file")
        | none =>
            if shdr.sh_addr ≤ ev ∧ ev < shdr.sh_addr + shdr.sh_size + 1 then
              findUcodeGo sv ev rest (some (ucodeSlice shdr sv ev))
            else .error (.assertFail "end out of range")
      else findUcodeGo sv ev rest acc

/-- Resolution of one boundary-symbol pair to extracted bytes: run the
section scan, then `assert ucode_text is not None`. -/
def findUcodeRange (shdrs : List SectionModel) (sv ev : Nat) :
    Except GenError (List Nat) :=
  match findUcodeGo sv ev shdrs none with
  | .error e => .error e
  | .ok none => .error (.assertFail "ucode_text is not None")
  | .ok (some b) => .ok b

theorem findUcodeGo_some_acc (sv ev : Nat) (b0 : List Nat) :
    ∀ (l : List SectionModel) (r : Option (List Nat)),
      findUcodeGo sv ev l (some b0) = .ok r ↔
        (l.filter (fun sec => sectionContains sec sv) = [] ∧ r = some b0) := by
  intro l
  induction l with
  | nil =>
      intro r
      simp [findUcodeGo, eq_comm]
  | cons a rest ih =>
      intro r
      simp only [findUcodeGo]
      by_cases hc : sectionContains a sv = true
      · rw [if_pos hc]
        simp [List.filter_cons, hc]
      · rw [if_neg hc]
        rw [ih]
        simp [List.filter_cons, hc]

theorem findUcodeGo_none_acc (sv ev : Nat) :
    ∀ (l : List SectionModel) (r : Option (List Nat)),
      findUcodeGo sv ev l none = .ok r ↔
        ((l.filter (fun sec => sectionContains sec sv) = [] ∧ r = none) ∨
          (∃ s, l.filter (fun sec => sectionContains sec sv) = [s] ∧
            (s.sh_addr ≤ ev ∧ ev < s.sh_addr + s.sh_size + 1) ∧
            r = some (ucodeSlice s sv ev))) := by
  intro l
  induction l with
  | nil =>
      intro r
      simp [findUcodeGo, eq_comm]
  | cons a rest ih =>
      intro r
      simp only [findUcodeGo]
      by_cases hc : sectionContains a sv = true
      · have hfc : List.filter (fun sec => sectionContains sec sv) (a :: rest) =
            a :: List.filter (fun sec => sectionContains sec sv) rest := by
          simp [List.filter_cons, hc]
        rw [if_pos hc]
        by_cases hev : a.sh_addr ≤ ev ∧ ev < a.sh_addr + a.sh_size + 1
        · rw [if_pos hev]
          rw [findUcodeGo_some_acc]
          rw [hfc]
          constructor
          · rintro ⟨hfil, hr⟩
            exact Or.inr ⟨a, by rw [hfil], hev, hr⟩
          · rintro (⟨hfil, _⟩ | ⟨s, hfil, hev', hr⟩)
            · cases hfil
            · simp only [List.cons.injEq] at hfil
              obtain ⟨rfl, hfil2⟩ := hfil
              exact ⟨hfil2, hr⟩
        · rw [if_neg hev]
          rw [hfc]
          constructor
          · intro h
            cases h
          · rintro (⟨hfil, _⟩ | ⟨s, hfil, hev', hr⟩)
            · cases hfil
            · simp only [List.cons.injEq] at hfil
              obtain ⟨rfl, hfil2⟩ := hfil
              exact absurd hev' hev
      · rw [if_neg hc]
        rw [ih]
        simp [List.filter_cons, hc]

/-- Claim C1: resolving a boundary pair succeeds with bytes `b` iff exactly
one section's `[sh_addr, sh_addr + sh_size)` interval contains the start
value, the end value lies in `[sh_addr, sh_addr + sh_size]` (upper bound
inclusive) of that unique section, and `b` is the slice
`[start - sh_addr, end - sh_addr)` of its content; zero matching sections,
two or more matching sections, or an out-of-range end value are all fatal. -/
theorem findUcodeRange_ok_iff (shdrs : List SectionModel) (sv ev : Nat)
    (b : List Nat) :
    findUcodeRange shdrs sv ev = .ok b ↔
      ∃ s, shdrs.filter (fun sec => sectionContains sec sv) = [s] ∧
        s.sh_addr ≤ ev ∧ ev ≤ s.sh_addr + s.sh_size ∧
        b = ucodeSlice s sv ev := by
  unfold findUcodeRange
  cases hgo : findUcodeGo sv ev shdrs none with
  | error e =>
      simp only [exceptOk]
      constructor
      · intro h
        cases h
      · rintro ⟨s, hfil, hev1, hev2, hb⟩
        have : findUcodeGo sv ev shdrs none = .ok (some (ucodeSlice s sv ev)) :=
          (findUcodeGo_none_acc sv ev shdrs _).mpr
            (Or.inr ⟨s, hfil, ⟨hev1, by omega⟩, rfl⟩)
        rw [hgo] at this
        cases this
  | ok o =>
      have hdec := (findUcodeGo_none_acc sv ev shdrs o).mp hgo
      cases o with
      | none =>
          constructor
          · intro h
            cases h
          · rintro ⟨s, hfil, hev1, hev2, hb⟩
            rcases hdec with ⟨hfil2, _⟩ | ⟨s', hfil2, _, habs⟩
            · rw [hfil] at hfil2
              cases hfil2
            · cases habs
      | some b' =>
          rcases hdec with ⟨_, habs⟩ | ⟨s', hfil', hev', hb'⟩
          · cases habs
          · simp only [Except.ok.injEq]
            constructor
            · intro hb
              subst hb
              simp only [Option.some.injEq] at hb'
              exact ⟨s', hfil', hev'.1, by omega, hb'⟩
            · rintro ⟨s, hfil, hev1, hev2, hb⟩
              rw [hfil] at hfil'
              simp only [List.cons.injEq] at hfil'
              obtain ⟨rfl, -⟩ := hfil'
              simp only [Option.some.injEq] at hb'
              rw [hb', hb]

/-- A section holding four bytes at address 0x1000. -/
def secUcode : SectionModel := ⟨".text", 0x1000, 4, [1, 2, 3, 4]⟩

/-- Concrete instantiation of `findUcodeRange_ok_iff`: the range
[0x1000, 0x1002) resolves to the first two bytes of `secUcode`. -/
theorem findUcodeRange_ok_iff_witness :
    findUcodeRange [secUcode] 0x1000 0x1002 = .ok [1, 2] :=
  (findUcodeRange_ok_iff [secUcode] 0x1000 0x1002 [1, 2]).mpr
    ⟨secUcode, by decide, by decide, by decide, by decide⟩

/-- The `UCodeInfo` dataclass. -/
structure UCodeInfo where
  name : String
  text_addr : Nat
  text_md5 : Nat
  data_md5 : Nat
  extra_indirect_branch_targets : List Nat
deriving DecidableEq

/-- The static `UCODES_FOR_RECOMP` table of `main`. -/
def UCODES_FOR_RECOMP : List UCodeInfo :=
  [⟨"aspMain", 0x04001000,
    0x316046D1748C3487EF8792D42CC6B433,
    0xAD2D1D7E8C2AFD1FB7E4267E57597EB7,
    [0x1F68, 0x1230, 0x114C, 0x1F18, 0x1E2C, 0x14F4, 0x1E9C, 0x1CB0,
     0x117C, 0x17CC, 0x11E8, 0x1AA4, 0x1B34, 0x1190, 0x1C5C, 0x1220,
     0x1784, 0x1830, 0x1A20, 0x1884, 0x1A84, 0x1A94, 0x1A48, 0x1BA0]⟩,
   ⟨"njpgdspMain", 0x04001080,
    0x1CAB4DC7403C218956ADC82DFFC624C0,
    0xCF5303B2528507DAD6DA93DF2A52A01F,
    []⟩]

/-- Outcome of boundary-symbol resolution for one microcode spec. -/
inductive UcodeSymsResolution where
  | skipped
  | fatal
  | proceed (text_start text_end data_start data_end : ELF32_SYM)
deriving DecidableEq

/-- Lookup of the four boundary symbols `<name>TextStart`, `<name>TextEnd`,
`<name>DataStart`, `<name>DataEnd` via `symbols_forname.get`: all four
absent is a skip (`continue` with a message, no error); all four present
proceeds; any other combination is the fatal
`"Could not find all relevant symbols"` assertion. -/
def resolveUcodeSyms (symmap : String → Option ELF32_SYM) (name : String) :
    UcodeSymsResolution :=
  match symmap (name ++ "TextStart"), symmap (name ++ "TextEnd"),
      symmap (name ++ "DataStart"), symmap (name ++ "DataEnd") with
  | none, none, none, none => .skipped
  | some ts, some te, some ds, some de => .proceed ts te ds de
  | _, _, _, _ => .fatal

/-- Per-microcode outcome: skipped (not present in this build) or emitted
with the extracted text bytes (the artifact written to
`rsp/<name>.text.bin` and described by the per-microcode descriptor). -/
inductive UcodeOutcome where
  | skipped
  | emitted (text : List Nat)
deriving DecidableEq

/-- Locate both ranges and verify both digests, then emit.  The source
locates the text and data ranges with two independent accumulators in a
single pass over the sections; this is modelled as one `findUcodeRange`
pass per range, which succeeds and fails under exactly the same
conditions.  The digest function (`md5sum`) is an external collaborator
and is passed in as a pure function. -/
def extractAndVerify (md5 : List Nat → Nat) (shdrs : List SectionModel)
    (ts te ds de : ELF32_SYM) (u : UCodeInfo) : Except GenError UcodeOutcome :=
  match findUcodeRange shdrs ts.st_value te.st_value with
  | .error e => .error e
  | .ok ucode_text =>
      match findUcodeRange shdrs ds.st_value de.st_value with
      | .error e => .error e
      | .ok ucode_data =>
          if md5 ucode_text = u.text_md5 then
            if md5 ucode_data = u.data_md5 then .ok (.emitted ucode_text)
            else .error (.assertFail "md5sum(ucode_data) == ucode.data_md5")
          else .error (.assertFail "md5sum(ucode_text) == ucode.text_md5")

/-- One iteration of the `for ucode in UCODES_FOR_RECOMP` loop: resolve the
boundary symbols, then extract and verify. -/
def processUcode (md5 : List Nat → Nat) (symmap : String → Option ELF32_SYM)
    (shdrs : List SectionModel) (u : UCodeInfo) : Except GenError UcodeOutcome :=
  match resolveUcodeSyms symmap u.name with
  | .skipped => .ok .skipped
  | .fatal =>
      .error (.assertFail ("Could not find all relevant symbols for ucode " ++ u.name))
  | .proceed ts te ds de => extractAndVerify md5 shdrs ts te ds de u

theorem extractAndVerify_ne_skipped (md5 : List Nat → Nat)
    (shdrs : List SectionModel) (ts te ds de : ELF32_SYM) (u : UCodeInfo) :
    extractAndVerify md5 shdrs ts te ds de u ≠ .ok .skipped := by
  unfold extractAndVerify
  repeat' split
  all_goals simp

/-- Claim C2: a microcode is skipped (without error, with no artifact
emitted) exactly when all four boundary symbols are absent from the
name-to-symbol map; if at least one but not all four are present, the
program fails with a fatal assertion. -/
theorem ucode_boundary_symbols (md5 : List Nat → Nat)
    (symmap : String → Option ELF32_SYM) (shdrs : List SectionModel)
    (u : UCodeInfo) :
    (processUcode md5 symmap shdrs u = .ok .skipped ↔
      (symmap (u.name ++ "TextStart") = none ∧ symmap (u.name ++ "TextEnd") = none ∧
        symmap (u.name ++ "DataStart") = none ∧ symmap (u.name ++ "DataEnd") = none)) ∧
    ((symmap (u.name ++ "TextStart") = none ∨ symmap (u.name ++ "TextEnd") = none ∨
        symmap (u.name ++ "DataStart") = none ∨ symmap (u.name ++ "DataEnd") = none) →
      ¬(symmap (u.name ++ "TextStart") = none ∧ symmap (u.name ++ "TextEnd") = none ∧
        symmap (u.name ++ "DataStart") = none ∧ symmap (u.name ++ "DataEnd") = none) →
      ∃ msg, processUcode md5 symmap shdrs u = .error (.assertFail msg)) := by
  simp only [processUcode, resolveUcodeSyms]
  cases h1 : symmap (u.name ++ "TextStart") <;>
    cases h2 : symmap (u.name ++ "TextEnd") <;>
      cases h3 : symmap (u.name ++ "DataStart") <;>
        cases h4 : symmap (u.name ++ "DataEnd") <;>
  refine ⟨?_, ?_⟩ <;>
  simp [extractAndVerify_ne_skipped]

/-- A placeholder symbol record. -/
def symDummy : ELF32_SYM := ⟨0, 0, 0, 0, 0, 0⟩

/-- A symbol map exposing only `aspMainTextStart` (one of four boundary
symbols). -/
def partialSymmap : String → Option ELF32_SYM :=
  fun s => if s = "aspMainTextStart" then some symDummy else none

/-- Concrete instantiation of `ucode_boundary_symbols`: with only
`aspMainTextStart` present, processing the `aspMain` microcode is fatal. -/
theorem ucode_boundary_symbols_witness :
    ∃ msg, processUcode (fun _ => 0) partialSymmap [] ⟨"aspMain", 0, 0, 0, []⟩ =
      .error (.assertFail msg) :=
  (ucode_boundary_symbols (fun _ => 0) partialSymmap [] ⟨"aspMain", 0, 0, 0, []⟩).2
    (by decide) (by decide)

/-- Claim C7: once the four boundary symbols resolve and both byte ranges
extract, the microcode step emits the text-bytes artifact exactly when the
digest of the extracted text equals the spec's expected text digest and the
digest of the extracted data equals the expected data digest; either
mismatch is a fatal assertion, so no artifact is emitted. -/
theorem ucode_digest_check (md5 : List Nat → Nat)
    (symmap : String → Option ELF32_SYM) (shdrs : List SectionModel)
    (u : UCodeInfo) (ts te ds de : ELF32_SYM) (textBytes dataBytes : List Nat)
    (hres : resolveUcodeSyms symmap u.name = .proceed ts te ds de)
    (htext : findUcodeRange shdrs ts.st_value te.st_value = .ok textBytes)
    (hdata : findUcodeRange shdrs ds.st_value de.st_value = .ok dataBytes) :
    (md5 textBytes = u.text_md5 ∧ md5 dataBytes = u.data_md5 →
      processUcode md5 symmap shdrs u = .ok (.emitted textBytes)) ∧
    (¬(md5 textBytes = u.text_md5 ∧ md5 dataBytes = u.data_md5) →
      ∃ msg, processUcode md5 symmap shdrs u = .error (.assertFail msg)) := by
  simp only [processUcode, hres, extractAndVerify, htext, hdata]
  constructor
  · rintro ⟨h1, h2⟩
    rw [if_pos h1, if_pos h2]
  · intro hnot
    by_cases h1 : md5 textBytes = u.text_md5
    · have h2 : ¬(md5 dataBytes = u.data_md5) := fun h2 => hnot ⟨h1, h2⟩
      rw [if_pos h1, if_neg h2]
      exact ⟨_, rfl⟩
    · rw [if_neg h1]
      exact ⟨_, rfl⟩

/-- A symbol map exposing all four boundary symbols of a microcode named
`u`, with text `[0x1000, 0x1002)` and data `[0x1002, 0x1004)`. -/
def fullSymmap : String → Option ELF32_SYM :=
  fun s =>
    if s = "uTextStart" then some ⟨0, 0x1000, 0, 0, 0, 0⟩
    else if s = "uTextEnd" then some ⟨0, 0x1002, 0, 0, 0, 0⟩
    else if s = "uDataStart" then some ⟨0, 0x1002, 0, 0, 0, 0⟩
    else if s = "uDataEnd" then some ⟨0, 0x1004, 0, 0, 0, 0⟩
    else none

/-- Concrete instantiation of `ucode_digest_check`: a digest function
returning 5 never matches expected digests 6 and 7, so the microcode step
fails after extraction. -/
theorem ucode_digest_check_witness :
    ∃ msg, processUcode (fun _ => 5) fullSymmap [secUcode] ⟨"u", 0, 6, 7, []⟩ =
      .error (.assertFail msg) :=
  (ucode_digest_check (fun _ => 5) fullSymmap [secUcode] ⟨"u", 0, 6, 7, []⟩
    ⟨0, 0x1000, 0, 0, 0, 0⟩ ⟨0, 0x1002, 0, 0, 0, 0⟩ ⟨0, 0x1002, 0, 0, 0, 0⟩
    ⟨0, 0x1004, 0, 0, 0, 0⟩ [1, 2] [3, 4] rfl rfl rfl).2 (by decide)

/-- The scanning loop of `read_string`: starting at the head of a suffix of
the table, advance while the current byte is nonzero; the result is the
index of the first zero byte relative to the suffix start.  Running off the
end of the buffer is `data[end]` raising `IndexError`, modelled as `none`. -/
def scan_zero : List Nat → Option Nat
  | [] => none
  | b :: rest => if b = 0 then some 0 else (scan_zero rest).map (· + 1)

/-- Source `read_string(data, p)`: scan forward from `p` one byte at a time
while `data[end] != 0`, then return `bytes(data[p:end])`.  The
`latin1`-style decode used at the call sites is a bijection on single
bytes, so the value is modelled as the byte list itself. -/
def read_string (data : List Nat) (p : Nat) : Option (List Nat) :=
  (scan_zero (data.drop p)).map (fun k => (data.drop p).take k)

theorem scan_zero_some_iff : ∀ (l : List Nat) (k : Nat),
    scan_zero l = some k ↔
      (l[k]? = some 0 ∧ ∀ j, j < k → l[j]? ≠ some 0) := by
  intro l
  induction l with
  | nil => intro k; simp [scan_zero]
  | cons b rest ih =>
      intro k
      simp only [scan_zero]
      by_cases hb : b = 0
      · rw [if_pos hb]
        subst hb
        cases k with
        | zero => simp
        | succ k' =>
            constructor
            · intro h
              cases h
            · rintro ⟨h1, h2⟩
              exact absurd (by simp : ((0 : Nat) :: rest)[0]? = some 0)
                (h2 0 (Nat.succ_pos k'))
      · rw [if_neg hb]
        cases k with
        | zero =>
            constructor
            · intro h
              cases hsz : scan_zero rest with
              | none => rw [hsz] at h; cases h
              | some a => rw [hsz] at h; simp at h
            · rintro ⟨h1, h2⟩
              simp at h1
              exact absurd h1 hb
        | succ k' =>
            constructor
            · intro h
              cases hsz : scan_zero rest with
              | none => rw [hsz] at h; cases h
              | some a =>
                  rw [hsz] at h
                  simp only [Option.map_some', Option.some.injEq] at h
                  have ha : a = k' := by omega
                  subst ha
                  obtain ⟨h1, h2⟩ := (ih a).mp hsz
                  refine ⟨by simpa using h1, ?_⟩
                  intro j hj
                  cases j with
                  | zero => simp [hb]
                  | succ j' => simpa using h2 j' (by omega)
            · rintro ⟨h1, h2⟩
              have h1' : rest[k']? = some 0 := by simpa using h1
              have h2' : ∀ j, j < k' → rest[j]? ≠ some 0 := by
                intro j hj
                simpa using h2 (j + 1) (by omega)
              rw [(ih k').mpr ⟨h1', h2'⟩]
              rfl

theorem scan_zero_none_iff : ∀ l : List Nat,
    scan_zero l = none ↔ ∀ j, j < l.length → l[j]? ≠ some 0 := by
  intro l
  induction l with
  | nil => simp [scan_zero]
  | cons b rest ih =>
      simp only [scan_zero]
      by_cases hb : b = 0
      · rw [if_pos hb]
        subst hb
        constructor
        · intro h
          cases h
        · intro h
          exact absurd (by simp : ((0 : Nat) :: rest)[0]? = some 0)
            (h 0 (by simp))
      · rw [if_neg hb]
        constructor
        · intro h
          have h' : scan_zero rest = none := by
            cases hsz : scan_zero rest with
            | none => rfl
            | some a => rw [hsz] at h; cases h
          intro j hj
          cases j with
          | zero => simp [hb]
          | succ j' =>
              have := (ih.mp h') j' (by simpa using hj)
              simpa using this
        · intro h
          have h' : ∀ j, j < rest.length → rest[j]? ≠ some 0 := by
            intro j hj
            simpa using h (j + 1) (by simpa using hj)
          rw [ih.mpr h']
          rfl

/-- Claim C10: `read_string` terminates with a value iff some zero byte
exists at or after the given offset within the table — in which case the
value is exactly the byte run from the offset up to (excluding) the first
zero byte — and signals an out-of-bounds access (`none`, the `IndexError`)
iff no zero byte exists at or after the offset. -/
theorem read_string_spec (data : List Nat) (p : Nat) :
    (read_string data p = none ↔
      ∀ i, p ≤ i → i < data.length → data[i]? ≠ some 0) ∧
    (∀ s, read_string data p = some s ↔
      ∃ k, data[p + k]? = some 0 ∧ (∀ j, j < k → data[p + j]? ≠ some 0) ∧
        s = (data.drop p).take k) := by
  constructor
  · rw [read_string, Option.map_eq_none', scan_zero_none_iff]
    constructor
    · intro h i hpi hilen
      have hj : i - p < (data.drop p).length := by
        simp [List.length_drop]
        omega
      have := h (i - p) hj
      rw [List.getElem?_drop] at this
      have hip : p + (i - p) = i := by omega
      rw [hip] at this
      exact this
    · intro h j hj
      rw [List.getElem?_drop]
      have hjlen : p + j < data.length := by
        simp [List.length_drop] at hj
        omega
      exact h (p + j) (Nat.le_add_right _ _) hjlen
  · intro s
    rw [read_string, Option.map_eq_some']
    constructor
    · rintro ⟨k, hsz, hs⟩
      obtain ⟨h1, h2⟩ := (scan_zero_some_iff _ k).mp hsz
      rw [List.getElem?_drop] at h1
      refine ⟨k, h1, ?_, hs.symm⟩
      intro j hj
      have := h2 j hj
      rw [List.getElem?_drop] at this
      exact this
    · rintro ⟨k, h1, h2, hs⟩
      refine ⟨k, ?_, hs.symm⟩
      apply (scan_zero_some_iff _ k).mpr
      constructor
      · rw [List.getElem?_drop]
        exact h1
      · intro j hj
        rw [List.getElem?_drop]
        exact h2 j hj

/-- Concrete instantiation of `read_string_spec`: in the table `"A\0B"`,
reading from offset 0 yields the byte run `[65]`. -/
theorem read_string_spec_witness :
    read_string [65, 0, 66] 0 = some [65] :=
  ((read_string_spec [65, 0, 66] 0).2 [65]).mpr
    ⟨1, by decide, by decide, by decide⟩

/-- Single-byte (`latin1`) decoding of one byte to a character. -/
def latin1Char (b : Nat) : Char := Char.ofNat b

/-- `ELF32_SYM.read_name`: resolve the null-terminated name at the symbol's
recorded string-table offset, decoding one byte per character. -/
def read_name_sym (strtabData : List Nat) (sym : ELF32_SYM) : Option String :=
  (read_string strtabData sym.st_name).map (fun bs => String.mk (bs.map latin1Char))

/-- The sort key of `sorted(..., key = lambda sym : sym.st_value)`. -/
def symLe (a b : ELF32_SYM) : Prop := a.st_value ≤ b.st_value

instance : DecidableRel symLe := fun a b => Nat.decLe a.st_value b.st_value

instance : IsTotal ELF32_SYM symLe := ⟨fun a b => Nat.le_total a.st_value b.st_value⟩

instance : IsTrans ELF32_SYM symLe := ⟨fun _ _ _ => Nat.le_trans⟩

/-- `sorted(symbols, key = st_value)`: Python's `sorted` is a stable
ascending sort, modelled by stable insertion sort under `symLe`. -/
def sortSymbols (syms : List ELF32_SYM) : List ELF32_SYM :=
  List.insertionSort symLe syms

/-- The name/symbol pairs enumerated by the dict comprehension
`{ sym.read_name(strtab) : sym for sym in symbols }`, in iteration order; a
failed name resolution is the `IndexError` of `read_string`. -/
def symbol_name_pairs (strtabData : List Nat) : List ELF32_SYM →
    Except GenError (List (String × ELF32_SYM))
  | [] => .ok []
  | sym :: rest =>
      match read_name_sym strtabData sym with
      | none => .error .indexError
      | some nm =>
          match symbol_name_pairs strtabData rest with
          | .error e => .error e
          | .ok ps => .ok ((nm, sym) :: ps)

/-- Python dict semantics over the enumerated pairs: each insertion
overwrites the previous binding of the key, so a lookup returns the value
of the key's last insertion. -/
def dict_get (ps : List (String × ELF32_SYM)) (nm : String) : Option ELF32_SYM :=
  ps.foldl (fun acc p => if p.1 = nm then some p.2 else acc) none

theorem dict_fold_eq_getLast (nm : String) :
    ∀ (ps : List (String × ELF32_SYM)) (acc : Option ELF32_SYM),
      ps.foldl (fun acc p => if p.1 = nm then some p.2 else acc) acc =
        match (ps.filter (fun p => decide (p.1 = nm))).getLast? with
        | some q => some q.2
        | none => acc := by
  intro ps
  induction ps using List.reverseRecOn with
  | nil => intro acc; rfl
  | append_singleton l p ih =>
      intro acc
      rw [List.foldl_append]
      simp only [List.foldl_cons, List.foldl_nil]
      rw [List.filter_append]
      by_cases hp : p.1 = nm
      · have hfp : List.filter (fun q => decide (q.1 = nm)) [p] = [p] := by
          simp [hp]
        rw [hfp, if_pos hp, List.getLast?_concat]
      · have hfp : List.filter (fun q => decide (q.1 = nm)) [p] = [] := by
          simp [hp]
        rw [hfp, if_neg hp, List.append_nil]
        exact ih acc

theorem symbol_name_pairs_snd (strtabData : List Nat) :
    ∀ (l : List ELF32_SYM) (ps : List (String × ELF32_SYM)),
      symbol_name_pairs strtabData l = .ok ps → ps.map Prod.snd = l := by
  intro l
  induction l with
  | nil =>
      intro ps h
      cases h
      rfl
  | cons sym rest ih =>
      intro ps h
      simp only [symbol_name_pairs] at h
      cases hnm : read_name_sym strtabData sym with
      | none => rw [hnm] at h; cases h
      | some nm =>
          rw [hnm] at h
          cases hrest : symbol_name_pairs strtabData rest with
          | error e => rw [hrest] at h; cases h
          | ok ps' =>
              rw [hrest] at h
              cases h
              simp only [List.map_cons]
              rw [ih ps' hrest]

/-- Claim C8: the symbol reader produces the full symbol sequence sorted
ascending by address value (a permutation of the parsed records), and the
name-to-symbol dictionary built over that sorted sequence maps every name
to the symbol of that name occurring last in the sorted sequence
(last-write-wins on duplicate names). -/
theorem symbols_sorted_and_lastwins (strtabData : List Nat) (syms : List ELF32_SYM) :
    List.Sorted symLe (sortSymbols syms) ∧
    (sortSymbols syms).Perm syms ∧
    (∀ ps, symbol_name_pairs strtabData (sortSymbols syms) = .ok ps →
      ps.map Prod.snd = sortSymbols syms ∧
      ∀ nm, dict_get ps nm =
        ((ps.filter (fun p => decide (p.1 = nm))).getLast?).map Prod.snd) := by
  refine ⟨List.sorted_insertionSort symLe syms, List.perm_insertionSort symLe syms, ?_⟩
  intro ps hps
  refine ⟨symbol_name_pairs_snd strtabData _ ps hps, ?_⟩
  intro nm
  rw [dict_get, dict_fold_eq_getLast nm ps none]
  cases (ps.filter (fun p => decide (p.1 = nm))).getLast? with
  | none => rfl
  | some q => rfl

/-- The symbol at address 3 whose name offset points at `"A"`. -/
def symA3 : ELF32_SYM := ⟨0, 3, 0, 0, 0, 0⟩

/-- The symbol at address 5 with the same name offset (`"A"`). -/
def symA5 : ELF32_SYM := ⟨0, 5, 0, 0, 0, 0⟩

/-- Concrete instantiation of `symbols_sorted_and_lastwins`: two symbols
both named `"A"`, inserted in address order `[3, 5]`; the lookup returns
the later one (address 5). -/
theorem symbols_sorted_and_lastwins_witness :
    dict_get [("A", symA3), ("A", symA5)] "A" = some symA5 := by
  have h := ((symbols_sorted_and_lastwins [65, 0] [symA5, symA3]).2.2
    [("A", symA3), ("A", symA5)] rfl).2 "A"
  rw [h]
  rfl

/-- Concrete instantiation of `struct_layout_props`: the offset chain of
`misalignedStruct` is nondecreasing. -/
theorem struct_layout_props_witness :
    List.Chain' (· ≤ ·) (field_offsets misalignedStruct ++ [end_total misalignedStruct]) :=
  (struct_layout_props misalignedStruct).1

/-- The `ELF32_EHDR` descriptor's field list. -/
def ELF32_EHDR_fields : StructDecl :=
  [("e_ident", .array .u8 16), ("e_type", .scalar .u16), ("e_machine", .scalar .u16),
   ("e_version", .scalar .u32), ("e_entry", .scalar .u32), ("e_phoff", .scalar .u32),
   ("e_shoff", .scalar .u32), ("e_flags", .scalar .u32), ("e_ehsize", .scalar .u16),
   ("e_phentsize", .scalar .u16), ("e_phnum", .scalar .u16), ("e_shentsize", .scalar .u16),
   ("e_shnum", .scalar .u16), ("e_shstrndx", .scalar .u16)]

/-- The `ELF32_SHDR` descriptor's field list. -/
def ELF32_SHDR_fields : StructDecl :=
  [("sh_name", .scalar .u32), ("sh_type", .scalar .u32), ("sh_flags", .scalar .u32),
   ("sh_addr", .scalar .u32), ("sh_offset", .scalar .u32), ("sh_size", .scalar .u32),
   ("sh_link", .scalar .u32), ("sh_info", .scalar .u32), ("sh_addralign", .scalar .u32),
   ("sh_entsize", .scalar .u32)]

/-- The `ELF32_SYM` descriptor's field list. -/
def ELF32_SYM_fields : StructDecl :=
  [("st_name", .scalar .u32), ("st_value", .scalar .u32), ("st_size", .scalar .u32),
   ("st_info", .scalar .u8), ("st_other", .scalar .u8), ("st_shndx", .scalar .u16)]

/-- The `N64_ROM_HEADER` descriptor's field list. -/
def N64_ROM_HEADER_fields : StructDecl :=
  [("endian", .scalar .u8), ("pi_dom1_cfg", .array .u8 3), ("sysclk_rate", .scalar .u32),
   ("entrypoint", .scalar .u32), ("libultra_ver", .scalar .u32), ("checksum", .scalar .u64),
   ("_padding_x18", .array .u8 8), ("rom_name", .array .char 0x14),
   ("_padding_x34", .array .u8 7), ("medium", .scalar .u8), ("game_id", .array .u8 2),
   ("region", .scalar .u8), ("game_rev", .scalar .u8)]

/-- Sanity: the computed sizes of the concrete descriptors are the standard
ELF32 sizes (52, 40, 16) and the 64-byte N64 ROM header; in particular the
`ehdr.e_shentsize == ELF32_SHDR.SIZE` validation in `main` compares against
40. -/
theorem concrete_descriptor_sizes :
    struct_size ELF32_EHDR_fields = 52 ∧ struct_size ELF32_SHDR_fields = 40 ∧
    struct_size ELF32_SYM_fields = 16 ∧ struct_size N64_ROM_HEADER_fields = 64 := by
  decide
